import Mathlib

/-!
Verification development for the batch video tagger
(`batch_video_tagger.py`).  Directory contents are modelled as lists of
entries, file names as `String`, and the two external fallible effects
(the media tag write and the file move) as boolean oracles keyed by the
source file name.
-/

namespace BatchTagger

/-- One immediate entry of a directory: its name and whether it is a
regular file (`is_file` in the source). -/
structure Entry where
  name : String
  isFile : Bool
deriving DecidableEq, Repr

/-- The fixed recognized set of video extensions
(`video_extensions` in `get_video_files`). -/
def videoExtensions : List String :=
  [".mp4", ".avi", ".mov", ".mkv", ".wmv", ".flv", ".webm", ".m4v"]

/-- Character-wise lowercasing, the model of Python `str.lower()` on
(ASCII) extension strings. -/
def strLower (s : String) : String := ⟨s.data.map Char.toLower⟩

/-- Python `pathlib`'s split of a file name into `stem` and `suffix`:
the suffix starts at the last dot, provided that dot is neither the
first nor the last character of the name; otherwise the suffix is
empty and the stem is the whole name. -/
def extSplit (n : String) : String × String :=
  match n.data.reverse.findIdx? (fun c => c = '.') with
  | none => (n, "")
  | some j =>
    let len := n.data.length
    let i := len - 1 - j
    if 0 < i ∧ i < len - 1 then (⟨n.data.take i⟩, ⟨n.data.drop i⟩) else (n, "")

/-- `Path.stem` of a file name. -/
def pathStem (n : String) : String := (extSplit n).1

/-- `Path.suffix` of a file name. -/
def pathSuffix (n : String) : String := (extSplit n).2

/-- Eligibility test of `get_video_files`: a regular file whose
lowercased suffix is in the recognized set. -/
def isVideoFile (e : Entry) : Bool :=
  e.isFile && videoExtensions.contains (strLower (pathSuffix e.name))

/-- Lexicographic comparison of names by character code, the order
used by Python's `sorted` on paths sharing one parent directory. -/
def lexLe : List Char → List Char → Bool
  | [], _ => true
  | _ :: _, [] => false
  | a :: as, b :: bs =>
    if a.toNat < b.toNat then true
    else if b.toNat < a.toNat then false
    else lexLe as bs

/-- Name order on directory entries. -/
def nameLE (a b : Entry) : Prop := lexLe a.name.data b.name.data = true

instance : DecidableRel nameLE := fun a b =>
  inferInstanceAs (Decidable (lexLe a.name.data b.name.data = true))

/-- `get_video_files`: keep the regular files with a recognized
extension and return them sorted by name. -/
def get_video_files (entries : List Entry) : List Entry :=
  List.insertionSort nameLE (entries.filter isVideoFile)

/-- The three directories owned by a `BatchVideoTagger` instance:
input (pending originals), processed (originals after success) and
output (tagged artifacts).  Input entries carry the regular-file flag
used by discovery; the other two are plain name listings. -/
structure FS where
  input : List Entry
  processed : List String
  output : List String
deriving DecidableEq, Repr

/-- The run configuration and the two external fallible effects:
`templateOk` is whether the metadata JSON file exists and parses
(lines 52-58), `tagOk` is the per-file result of
`SimpleVideoTagger.write_metadata`, `moveOk` the per-file result of
`shutil.move`. -/
structure Config where
  templateOk : Bool
  tagOk : String → Bool
  moveOk : String → Bool

/-- The output artifact name `f"{stem}_tagged{suffix}"` (line 64). -/
def taggedName (n : String) : String := pathStem n ++ "_tagged" ++ pathSuffix n

/-- Creating a file in a directory listing: overwriting an existing
name leaves the listing unchanged. -/
def addFile (l : List String) (n : String) : List String :=
  if l.contains n then l else l ++ [n]

/-- `process_single_video`: check the metadata template, invoke the
tag write (which on success creates the tagged artifact in the output
directory), then move the original into the processed directory.  Any
failure is caught and returned as `false` with the file-system state
reached so far. -/
def process_single_video (cfg : Config) (fs : FS) (v : Entry) : Bool × FS :=
  if cfg.templateOk = false then (false, fs)
  else if cfg.tagOk v.name then
    let fs₁ : FS := { fs with output := addFile fs.output (taggedName v.name) }
    if cfg.moveOk v.name then
      (true, { fs₁ with input := fs₁.input.filter (fun e => e.name != v.name),
                        processed := addFile fs₁.processed v.name })
    else (false, fs₁)
  else (false, fs)

/-- Result of a whole batch run: per-file outcomes in discovery
order, the final directory state, and the divisor used by the summary
success-rate computation (`none` when the summary block was not
reached because no video files were found). -/
structure RunResult where
  outcomes : List (String × Bool)
  fs : FS
  summaryDivisor : Option Nat
deriving DecidableEq, Repr

/-- The per-file loop of `process_all_videos` (lines 110-117). -/
def processLoop (cfg : Config) : FS → List Entry → List (String × Bool) × FS
  | fs, [] => ([], fs)
  | fs, v :: rest =>
    let r := process_single_video cfg fs v
    let rest' := processLoop cfg r.2 rest
    ((v.name, r.1) :: rest'.1, rest'.2)

/-- `process_all_videos`: discover, return early with an empty
mapping when nothing was found, otherwise run the loop and compute
the summary whose success rate divides by the number of discovered
files. -/
def process_all_videos (cfg : Config) (fs : FS) : RunResult :=
  let video_files := get_video_files fs.input
  if video_files.isEmpty then ⟨[], fs, none⟩
  else
    let r := processLoop cfg fs video_files
    ⟨r.1, r.2, some video_files.length⟩

/-- `Path.glob` with a pattern of the shape `*.ext` on a possibly
nonexistent directory: a nonexistent directory yields no matches, an
existing one yields the names ending (case-sensitively) in the
pattern suffix, in listing order. -/
def globSfx (pat : String) (d : Option (List String)) : List String :=
  match d with
  | none => []
  | some names => names.filter (fun n => pat.data.isSuffixOf n.data)

/-- Whether a name matches the glob pattern involving the marker
string, i.e. contains the tagged-name marker as a substring. -/
def containsTagged (n : String) : Bool :=
  n.data.tails.any (fun t => "_tagged.".data.isPrefixOf t)

/-- The output-directory glob (line 157) on a possibly nonexistent
directory. -/
def globTagged (d : Option (List String)) : List String :=
  match d with
  | none => []
  | some names => names.filter containsTagged

/-- The processed-directory listing of `show_directory_status`
(line 149): the lowercase mp4, avi and mov globs, concatenated. -/
def processedGlob (d : Option (List String)) : List String :=
  globSfx ".mp4" d ++ globSfx ".avi" d ++ globSfx ".mov" d

/-- The values printed by `show_directory_status`: counts, the full
input listing, and the first five names of the other two
directories. -/
structure DirectoryReport where
  inputCount : Nat
  inputNames : List String
  processedCount : Nat
  processedPreview : List String
  outputCount : Nat
  outputPreview : List String
deriving DecidableEq, Repr

/-- `show_directory_status`: a read-only snapshot of the three
directories.  The input directory is listed with `Path.iterdir`,
which raises `FileNotFoundError` when the directory does not exist
(modelled as `Except.error`); the other two directories are read with
`Path.glob`, which treats a nonexistent directory as empty. -/
def show_directory_status (input : Option (List Entry))
    (processed output : Option (List String)) : Except Unit DirectoryReport :=
  match input with
  | none => .error ()
  | some entries =>
    let input_videos := get_video_files entries
    let processed_files := processedGlob processed
    let output_files := globTagged output
    .ok { inputCount := input_videos.length,
          inputNames := input_videos.map Entry.name,
          processedCount := processed_files.length,
          processedPreview := processed_files.take 5,
          outputCount := output_files.length,
          outputPreview := output_files.take 5 }

/-- Modelled from the spec: the derived-title humanization of
`SimpleVideoTagger.load_metadata_with_auto_title` lives in
`simple_video_tagger.py`, which is not among the repository sources;
the spec only requires a deterministic non-empty title derived from
the base name, here underscore-to-space with a fixed fallback for an
empty base name. -/
def deriveTitle (b : String) : String :=
  if b.data.isEmpty then "Untitled"
  else ⟨b.data.map (fun c => if c = '_' then ' ' else c)⟩

/-- Modelled from the spec: `SimpleVideoTagger.load_metadata_with_auto_title`
(called at line 61) is in `simple_video_tagger.py`, which is not among
the repository sources.  Per the spec's Metadata Composer contract it
starts from a copy of the template and inserts a derived title exactly
when the template has no `title` key, never mutating its argument. -/
def compose (template : List (String × String)) (baseName : String) :
    List (String × String) :=
  if (template.lookup "title").isSome then template
  else template ++ [("title", deriveTitle baseName)]

theorem lexLe_total (a b : List Char) : lexLe a b = true ∨ lexLe b a = true := by
  induction a generalizing b with
  | nil => exact Or.inl rfl
  | cons x xs ih =>
    cases b with
    | nil => exact Or.inr rfl
    | cons y ys =>
      rcases Nat.lt_trichotomy x.toNat y.toNat with h | h | h
      · left; simp [lexLe, h]
      · rcases ih ys with h2 | h2
        · left; simp [lexLe, h, h2]
        · right; simp [lexLe, h.symm, h2]
      · right; simp [lexLe, h]

theorem lexLe_trans {a b c : List Char} (h₁ : lexLe a b = true)
    (h₂ : lexLe b c = true) : lexLe a c = true := by
  induction a generalizing b c with
  | nil => rfl
  | cons x xs ih =>
    cases b with
    | nil => simp [lexLe] at h₁
    | cons y ys =>
      cases c with
      | nil => simp [lexLe] at h₂
      | cons z zs =>
        simp only [lexLe] at h₁ h₂ ⊢
        by_cases hxy : x.toNat < y.toNat <;> by_cases hyz : y.toNat < z.toNat <;>
          simp only [hxy, hyz, if_true, if_false, if_pos, if_neg, not_false_iff] at h₁ h₂ ⊢
        · simp [Nat.lt_trans hxy hyz]
        · by_cases hzy : z.toNat < y.toNat
          · simp [hzy] at h₂
          · have hyz2 : y.toNat = z.toNat := Nat.le_antisymm (Nat.le_of_not_lt hzy) (Nat.le_of_not_lt hyz)
            simp [hyz2 ▸ hxy]
        · by_cases hyx : y.toNat < x.toNat
          · simp [hyx] at h₁
          · have hxy2 : x.toNat = y.toNat := Nat.le_antisymm (Nat.le_of_not_lt hyx) (Nat.le_of_not_lt hxy)
            simp [hxy2, hyz]
        · by_cases hyx : y.toNat < x.toNat
          · simp [hyx] at h₁
          · by_cases hzy : z.toNat < y.toNat
            · simp [hzy] at h₂
            · have hxy2 : x.toNat = y.toNat := Nat.le_antisymm (Nat.le_of_not_lt hyx) (Nat.le_of_not_lt hxy)
              have hyz2 : y.toNat = z.toNat := Nat.le_antisymm (Nat.le_of_not_lt hzy) (Nat.le_of_not_lt hyz)
              simp only [hyx, if_neg, not_false_iff] at h₁
              simp only [hzy, if_neg, not_false_iff] at h₂
              have : ¬ x.toNat < z.toNat := by omega
              have : ¬ z.toNat < x.toNat := by omega
              simp_all [ih h₁ h₂]

theorem mem_addFile (l : List String) (n : String) : n ∈ addFile l n := by
  unfold addFile
  split
  · next h => exact List.elem_iff.mp h
  · exact List.mem_append_right l (List.mem_singleton.mpr rfl)

theorem addFile_subset (l : List String) (n : String) : l ⊆ addFile l n := by
  unfold addFile
  split
  · exact fun _ h => h
  · exact fun _ h => List.mem_append_left _ h

theorem lookup_append_of_some {β : Type} {l l₂ : List (String × β)} {a : String} {v : β}
    (h : l.lookup a = some v) : (l ++ l₂).lookup a = some v := by
  induction l with
  | nil => simp [List.lookup] at h
  | cons p t ih =>
    cases p with
    | mk k b =>
      rw [List.cons_append, List.lookup_cons] at *
      cases hak : a == k with
      | true => simpa [hak] using h
      | false =>
        simp only [hak] at h ⊢
        exact ih h

theorem lookup_append_of_none {β : Type} {l l₂ : List (String × β)} {a : String}
    (h : l.lookup a = none) : (l ++ l₂).lookup a = l₂.lookup a := by
  induction l with
  | nil => rfl
  | cons p t ih =>
    cases p with
    | mk k b =>
      rw [List.cons_append, List.lookup_cons] at *
      cases hak : a == k with
      | true => simp [hak] at h
      | false =>
        simp only [hak] at h ⊢
        exact ih h

theorem suffix_of_suffix_length_le {α : Type} {l₁ l₂ l₃ : List α}
    (h₁ : l₁ <:+ l₃) (h₂ : l₂ <:+ l₃) (h : l₁.length ≤ l₂.length) : l₁ <:+ l₂ := by
  rw [← List.reverse_prefix] at h₁ h₂ ⊢
  exact List.prefix_of_prefix_length_le h₁ h₂ (by simpa using h)

theorem pathSuffix_suffix (n : String) : (pathSuffix n).data <:+ n.data := by
  unfold pathSuffix extSplit
  cases h : n.data.reverse.findIdx? (fun c => c = '.') with
  | none => exact List.nil_suffix
  | some j =>
    simp only
    split
    · exact List.drop_suffix _ n.data
    · exact List.nil_suffix

theorem process_single_video_fst (cfg : Config) (fs : FS) (v : Entry) :
    (process_single_video cfg fs v).1
      = (cfg.templateOk && (cfg.tagOk v.name && cfg.moveOk v.name)) := by
  cases htm : cfg.templateOk <;> cases htag : cfg.tagOk v.name <;>
    cases hmv : cfg.moveOk v.name <;> simp [process_single_video, htm, htag, hmv]

theorem processLoop_outcomes (cfg : Config) (fs : FS) (l : List Entry) :
    (processLoop cfg fs l).1
      = l.map (fun e => (e.name, cfg.templateOk && (cfg.tagOk e.name && cfg.moveOk e.name))) := by
  induction l generalizing fs with
  | nil => rfl
  | cons v rest ih =>
    simp only [processLoop, List.map_cons, ih, process_single_video_fst]

theorem processLoop_fs_of_templateBad (cfg : Config) (h : cfg.templateOk = false)
    (fs : FS) (l : List Entry) : (processLoop cfg fs l).2 = fs := by
  induction l generalizing fs with
  | nil => rfl
  | cons v rest ih =>
    simp only [processLoop, process_single_video, h, if_pos, ih]

/-- C4: discovery scans only the immediate entries, keeps exactly the
regular files whose lowercased extension is in the fixed recognized
set, returns them sorted by name, and returns an empty list rather
than an error when no eligible file exists. -/
theorem get_video_files_spec (entries : List Entry) :
    List.Sorted nameLE (get_video_files entries)
    ∧ (∀ e, e ∈ get_video_files entries ↔
        e ∈ entries ∧ e.isFile = true ∧ strLower (pathSuffix e.name) ∈ videoExtensions)
    ∧ ((∀ e ∈ entries, isVideoFile e = false) → get_video_files entries = []) := by
  refine ⟨@List.sorted_insertionSort Entry nameLE _
      ⟨fun a b => lexLe_total a.name.data b.name.data⟩
      ⟨fun _ _ _ h₁ h₂ => lexLe_trans h₁ h₂⟩ _, fun e => ?_, fun h => ?_⟩
  · rw [get_video_files, List.mem_insertionSort, List.mem_filter, isVideoFile]
    simp [List.elem_iff, and_assoc]
  · rw [get_video_files, List.filter_eq_nil_iff.mpr (fun a ha => by simp [h a ha])]
    rfl

/-- Witness for C4 at a concrete directory listing. -/
theorem get_video_files_spec_witness :
    (⟨"a.mp4", true⟩ : Entry)
        ∈ get_video_files [⟨"notes.txt", true⟩, ⟨"b.MOV", true⟩, ⟨"a.mp4", true⟩]
    ∧ get_video_files [⟨"x.txt", true⟩, ⟨"y.mp4", false⟩] = [] := by
  constructor
  · exact ((get_video_files_spec _).2.1 _).mpr ⟨by decide, by decide, by decide⟩
  · exact (get_video_files_spec _).2.2 (by decide)

/-- C8: running the batch on an empty input directory processes zero
items, returns an empty outcome mapping, and leaves all three
directories unchanged (so a second run after the first emptied the
input directory is a no-op). -/
theorem process_all_videos_empty_input (cfg : Config) (fs : FS) (h : fs.input = []) :
    process_all_videos cfg fs = ⟨[], fs, none⟩ := by
  unfold process_all_videos
  rw [h]
  rfl

/-- Witness for C8 at a concrete state whose input directory is empty. -/
theorem process_all_videos_empty_input_witness :
    process_all_videos ⟨true, fun _ => true, fun _ => true⟩
        ⟨[], ["p.mp4"], ["o_tagged.mp4"]⟩
      = ⟨[], ⟨[], ["p.mp4"], ["o_tagged.mp4"]⟩, none⟩ :=
  process_all_videos_empty_input _ _ rfl

/-- C9: the success-rate division in the run summary is reached only
when at least one video file was discovered, because the function
returns an empty mapping early otherwise; hence its divisor is never
zero. -/
theorem process_all_videos_divisor_pos (cfg : Config) (fs : FS) (d : Nat)
    (h : (process_all_videos cfg fs).summaryDivisor = some d) : 0 < d := by
  unfold process_all_videos at h
  by_cases he : (get_video_files fs.input).isEmpty
  · simp [he] at h
  · simp only [he, Bool.false_eq_true, if_false, Option.some.injEq] at h
    have hne : get_video_files fs.input ≠ [] := by
      simpa [List.isEmpty_iff] using he
    simpa [← h] using List.length_pos.mpr hne

/-- Witness for C9 at a concrete run that reaches the summary. -/
theorem process_all_videos_divisor_pos_witness :
    (process_all_videos ⟨true, fun _ => true, fun _ => true⟩
        ⟨[⟨"a.mp4", true⟩], [], []⟩).summaryDivisor = some 1
    ∧ 0 < 1 :=
  ⟨by decide, process_all_videos_divisor_pos ⟨true, fun _ => true, fun _ => true⟩
      ⟨[⟨"a.mp4", true⟩], [], []⟩ 1 (by decide)⟩

/-- C1, counterexample: with the metadata template missing, the batch
does record per-item outcomes (one Failure per discovered file)
instead of failing as a whole with none. -/
theorem template_missing_cex :
    (process_all_videos ⟨false, fun _ => true, fun _ => true⟩
        ⟨[⟨"a.mp4", true⟩], [], []⟩).outcomes = [("a.mp4", false)]
    ∧ (process_all_videos ⟨false, fun _ => true, fun _ => true⟩
        ⟨[⟨"a.mp4", true⟩], [], []⟩).outcomes ≠ [] := by
  constructor
  · decide
  · decide

/-- C1, amended: when the metadata template is missing or unparsable,
the run does not abort: every discovered item is attempted and
recorded as a Failure, and no file in any of the three directories is
touched. -/
theorem process_all_videos_template_missing (cfg : Config) (fs : FS)
    (h : cfg.templateOk = false) :
    (process_all_videos cfg fs).outcomes
        = (get_video_files fs.input).map (fun e => (e.name, false))
    ∧ (process_all_videos cfg fs).fs = fs := by
  unfold process_all_videos
  by_cases he : (get_video_files fs.input).isEmpty
  · constructor
    · simp [he, List.isEmpty_iff.mp he]
    · simp [he]
  · constructor
    · simp [he, processLoop_outcomes, h]
    · simp [he, processLoop_fs_of_templateBad cfg h]

/-- Witness for the amended C1 at a concrete input. -/
theorem process_all_videos_template_missing_witness :
    (process_all_videos ⟨false, fun _ => true, fun _ => true⟩
        ⟨[⟨"a.mp4", true⟩], [], []⟩).outcomes
        = (get_video_files [⟨"a.mp4", true⟩]).map (fun e => (e.name, false))
    ∧ (process_all_videos ⟨false, fun _ => true, fun _ => true⟩
        ⟨[⟨"a.mp4", true⟩], [], []⟩).fs = ⟨[⟨"a.mp4", true⟩], [], []⟩ :=
  process_all_videos_template_missing _ _ rfl

/-- C5: when an item is processed successfully, afterwards its
original file is absent from the input directory, present in the
processed directory, and the tagged artifact named
stem ++ "_tagged" ++ suffix is present in the output directory. -/
theorem process_single_video_success (cfg : Config) (fs : FS) (v : Entry)
    (h : (process_single_video cfg fs v).1 = true) :
    (∀ e ∈ ((process_single_video cfg fs v).2).input, e.name ≠ v.name)
    ∧ v.name ∈ ((process_single_video cfg fs v).2).processed
    ∧ taggedName v.name ∈ ((process_single_video cfg fs v).2).output := by
  cases htm : cfg.templateOk <;> cases htag : cfg.tagOk v.name <;>
    cases hmv : cfg.moveOk v.name <;>
    simp [process_single_video, htm, htag, hmv] at h ⊢
  exact ⟨mem_addFile _ _, mem_addFile _ _⟩

/-- Witness for C5 at a concrete item whose processing succeeds. -/
theorem process_single_video_success_witness :
    "a.mp4" ∈ ((process_single_video ⟨true, fun _ => true, fun _ => true⟩
        ⟨[⟨"a.mp4", true⟩], [], []⟩ ⟨"a.mp4", true⟩).2).processed
    ∧ taggedName "a.mp4" ∈ ((process_single_video ⟨true, fun _ => true, fun _ => true⟩
        ⟨[⟨"a.mp4", true⟩], [], []⟩ ⟨"a.mp4", true⟩).2).output :=
  (process_single_video_success ⟨true, fun _ => true, fun _ => true⟩
    ⟨[⟨"a.mp4", true⟩], [], []⟩ ⟨"a.mp4", true⟩ (by decide)).2

/-- C6: when an item's processing fails (tag application fails, the
template cannot be read, or the post-tag move fails), the outcome is
Failure, the original file is left in place in the input directory,
the processed directory is untouched, and a tagged artifact already
written to the output directory is left there with no cleanup. -/
theorem process_single_video_failure (cfg : Config) (fs : FS) (v : Entry)
    (h : (process_single_video cfg fs v).1 = false) :
    ((process_single_video cfg fs v).2).input = fs.input
    ∧ ((process_single_video cfg fs v).2).processed = fs.processed
    ∧ (cfg.templateOk = true → cfg.tagOk v.name = true →
        taggedName v.name ∈ ((process_single_video cfg fs v).2).output) := by
  cases htm : cfg.templateOk <;> cases htag : cfg.tagOk v.name <;>
    cases hmv : cfg.moveOk v.name <;>
    simp [process_single_video, htm, htag, hmv] at h ⊢
  exact mem_addFile _ _

/-- Witness for C6 at a concrete item whose post-tag move fails. -/
theorem process_single_video_failure_witness :
    ((process_single_video ⟨true, fun _ => true, fun _ => false⟩
        ⟨[⟨"a.mp4", true⟩], [], []⟩ ⟨"a.mp4", true⟩).2).input = [⟨"a.mp4", true⟩]
    ∧ ((process_single_video ⟨true, fun _ => true, fun _ => false⟩
        ⟨[⟨"a.mp4", true⟩], [], []⟩ ⟨"a.mp4", true⟩).2).processed = []
    ∧ taggedName "a.mp4" ∈ ((process_single_video ⟨true, fun _ => true, fun _ => false⟩
        ⟨[⟨"a.mp4", true⟩], [], []⟩ ⟨"a.mp4", true⟩).2).output :=
  ⟨(process_single_video_failure ⟨true, fun _ => true, fun _ => false⟩
      ⟨[⟨"a.mp4", true⟩], [], []⟩ ⟨"a.mp4", true⟩ (by decide)).1,
   (process_single_video_failure ⟨true, fun _ => true, fun _ => false⟩
      ⟨[⟨"a.mp4", true⟩], [], []⟩ ⟨"a.mp4", true⟩ (by decide)).2.1,
   (process_single_video_failure ⟨true, fun _ => true, fun _ => false⟩
      ⟨[⟨"a.mp4", true⟩], [], []⟩ ⟨"a.mp4", true⟩ (by decide)).2.2 rfl rfl⟩

/-- C2: in a batch where exactly item k's tag application fails and
all others succeed, the batch is not aborted: every discovered item
gets an outcome in discovery order, with exactly one Failure entry
and N minus one Success entries. -/
theorem process_all_videos_partial_failure (cfg : Config) (fs : FS) (k : Nat)
    (hk : k < (get_video_files fs.input).length)
    (hnd : ((get_video_files fs.input).map Entry.name).Nodup)
    (htm : cfg.templateOk = true)
    (hmv : ∀ e ∈ get_video_files fs.input, cfg.moveOk e.name = true)
    (htag : ∀ e ∈ get_video_files fs.input,
      cfg.tagOk e.name = !(e.name == ((get_video_files fs.input)[k]).name)) :
    (process_all_videos cfg fs).outcomes
        = (get_video_files fs.input).map
            (fun e => (e.name, !(e.name == ((get_video_files fs.input)[k]).name)))
    ∧ (process_all_videos cfg fs).outcomes.countP (fun p => p.2 == false) = 1
    ∧ (process_all_videos cfg fs).outcomes.countP (fun p => p.2 == true)
        = (get_video_files fs.input).length - 1
    ∧ (process_all_videos cfg fs).outcomes.length = (get_video_files fs.input).length := by
  have hemp : (get_video_files fs.input).isEmpty = false := by
    cases hf : get_video_files fs.input
    · rw [hf] at hk; simp at hk
    · rfl
  have houtcomes : (process_all_videos cfg fs).outcomes
      = (get_video_files fs.input).map
          (fun e => (e.name, !(e.name == ((get_video_files fs.input)[k]).name))) := by
    unfold process_all_videos
    simp only [hemp, Bool.false_eq_true, if_false]
    rw [processLoop_outcomes]
    apply List.map_congr_left
    intro e he
    rw [htm, htag e he, hmv e he]
    simp
  have hcount1 : (process_all_videos cfg fs).outcomes.countP (fun p => p.2 == false) = 1 := by
    rw [houtcomes, List.countP_map]
    have hfun : ((fun p : String × Bool => p.2 == false)
        ∘ (fun e : Entry => (e.name, !(e.name == ((get_video_files fs.input)[k]).name))))
        = fun e : Entry => e.name == ((get_video_files fs.input)[k]).name := by
      funext e
      by_cases h : e.name = ((get_video_files fs.input)[k]).name <;> simp [h]
    rw [hfun]
    rw [show (fun e : Entry => e.name == ((get_video_files fs.input)[k]).name)
        = ((fun n : String => n == ((get_video_files fs.input)[k]).name) ∘ Entry.name) from rfl,
      ← List.countP_map, ← List.count_eq_countP]
    exact List.count_eq_one_of_mem hnd
      (List.mem_map_of_mem Entry.name (List.getElem_mem hk))
  have hlen : (process_all_videos cfg fs).outcomes.length
      = (get_video_files fs.input).length := by
    rw [houtcomes, List.length_map]
  refine ⟨houtcomes, hcount1, ?_, hlen⟩
  have hsplit := List.length_eq_countP_add_countP (fun p : String × Bool => p.2 == false)
    (process_all_videos cfg fs).outcomes
  have hfun2 : (fun p : String × Bool => decide ¬(p.2 == false) = true)
      = fun p : String × Bool => p.2 == true := by
    funext p
    cases p.2 <;> simp
  rw [hfun2] at hsplit
  omega

/-- Witness for C2: three discovered files of which exactly the
middle one fails. -/
theorem process_all_videos_partial_failure_witness :
    (process_all_videos ⟨true, fun n => !(n == "b.mp4"), fun _ => true⟩
        ⟨[⟨"a.mp4", true⟩, ⟨"b.mp4", true⟩, ⟨"c.mp4", true⟩], [], []⟩).outcomes.countP
        (fun p => p.2 == false) = 1 :=
  (process_all_videos_partial_failure _ _ 1 (by decide) (by decide) rfl (by decide)
    (by decide)).2.1

/-- C3, counterexample: the status snapshot does not tolerate a
nonexistent input directory; listing it fails instead of treating it
as empty. -/
theorem show_directory_status_cex :
    show_directory_status none (some []) (some []) = .error () := rfl

/-- C3, amended: the status snapshot is modelled as a pure read (no
state is produced, only a report); a nonexistent processed or output
directory is tolerated and treated as empty, but a nonexistent input
directory makes the snapshot fail. -/
theorem show_directory_status_amended (inp : List Entry) (proc out : Option (List String)) :
    (show_directory_status (some inp) proc out).isOk = true
    ∧ show_directory_status (some inp) none out
        = show_directory_status (some inp) (some []) out
    ∧ show_directory_status (some inp) proc none
        = show_directory_status (some inp) proc (some [])
    ∧ show_directory_status none proc out = .error () := by
  refine ⟨rfl, ?_, ?_, rfl⟩ <;> rfl

/-- C7: compose starts from a copy of the template (every binding of
the template is preserved in the result, and the template value is
never changed); a present `title` value is kept unchanged, and when
`title` is absent the result carries a deterministic, non-empty title
derived from the base name. -/
theorem compose_spec (template : List (String × String)) (baseName : String) :
    (∀ v, template.lookup "title" = some v →
      (compose template baseName).lookup "title" = some v)
    ∧ (template.lookup "title" = none →
        (compose template baseName).lookup "title" = some (deriveTitle baseName)
        ∧ deriveTitle baseName ≠ "")
    ∧ (∀ k v, template.lookup k = some v → (compose template baseName).lookup k = some v) := by
  refine ⟨fun v hv => ?_, fun hn => ⟨?_, ?_⟩, fun k v hv => ?_⟩
  · rw [compose, if_pos (by rw [hv]; rfl)]
    exact hv
  · rw [compose, if_neg (by rw [hn]; simp)]
    rw [lookup_append_of_none hn]
    simp [List.lookup]
  · unfold deriveTitle
    split
    · decide
    · next hne =>
      intro heq
      exact hne (by rw [List.map_eq_nil_iff.mp (congrArg String.data heq)]; rfl)
  · by_cases ht : (template.lookup "title").isSome
    · rw [compose, if_pos ht]; exact hv
    · rw [compose, if_neg ht]; exact lookup_append_of_some hv

/-- Witness for C7: a template without a title gains the derived one,
a template with a title keeps it. -/
theorem compose_spec_witness :
    (compose [("artist", "X")] "my_video").lookup "title" = some (deriveTitle "my_video")
    ∧ deriveTitle "my_video" ≠ ""
    ∧ (compose [("title", "T")] "b").lookup "title" = some "T" :=
  ⟨((compose_spec [("artist", "X")] "my_video").2.1 (by decide)).1,
   ((compose_spec [("artist", "X")] "my_video").2.1 (by decide)).2,
   (compose_spec [("title", "T")] "b").1 "T" (by decide)⟩

/-- C10: the status report for the processed directory lists exactly
the files matching one of the lowercase mp4, avi, mov globs; a file
whose suffix is one of the other recognized extensions, or an
uppercase variant, is omitted. -/
theorem processedGlob_spec (proc : List String) :
    (∀ n, n ∈ processedGlob (some proc) ↔ n ∈ proc ∧
      (".mp4".data.isSuffixOf n.data ∨ ".avi".data.isSuffixOf n.data
        ∨ ".mov".data.isSuffixOf n.data))
    ∧ (∀ n ∈ proc, pathSuffix n ∈ ([".mkv", ".wmv", ".flv", ".webm", ".m4v",
        ".MP4", ".AVI", ".MOV", ".MKV", ".WMV", ".FLV", ".WEBM", ".M4V"] : List String) →
        n ∉ processedGlob (some proc)) := by
  have hmem : ∀ n, n ∈ processedGlob (some proc) ↔ n ∈ proc ∧
      (".mp4".data.isSuffixOf n.data ∨ ".avi".data.isSuffixOf n.data
        ∨ ".mov".data.isSuffixOf n.data) := by
    intro n
    simp only [processedGlob, globSfx, List.mem_append, List.mem_filter]
    constructor
    · rintro ((⟨h, h1⟩ | ⟨h, h2⟩) | ⟨h, h3⟩)
      · exact ⟨h, Or.inl h1⟩
      · exact ⟨h, Or.inr (Or.inl h2)⟩
      · exact ⟨h, Or.inr (Or.inr h3)⟩
    · rintro ⟨h, h1 | h2 | h3⟩
      · exact Or.inl (Or.inl ⟨h, h1⟩)
      · exact Or.inl (Or.inr ⟨h, h2⟩)
      · exact Or.inr ⟨h, h3⟩
  refine ⟨hmem, fun n hn hsuf hglob => ?_⟩
  obtain ⟨-, hd⟩ := (hmem n).mp hglob
  have hs : (pathSuffix n).data <:+ n.data := pathSuffix_suffix n
  simp only [List.isSuffixOf_iff_suffix] at hd
  simp only [List.mem_cons, List.not_mem_nil, or_false] at hsuf
  rcases hsuf with h|h|h|h|h|h|h|h|h|h|h|h|h <;> rw [h] at hs <;>
    rcases hd with hp | hp | hp <;>
    exact absurd (suffix_of_suffix_length_le hp hs (by decide)) (by decide)

/-- Witness for C10: a lowercase mp4 file is listed, an uppercase mkv
file is omitted. -/
theorem processedGlob_spec_witness :
    "a.mp4" ∈ processedGlob (some ["a.mp4", "b.MKV"])
    ∧ "b.MKV" ∉ processedGlob (some ["a.mp4", "b.MKV"]) :=
  ⟨((processedGlob_spec _).1 "a.mp4").mpr ⟨by decide, Or.inl (by decide)⟩,
   (processedGlob_spec _).2 "b.MKV" (by decide) (by decide)⟩

end BatchTagger
